import Mathlib

/-!
Verification of the core compiler of the dataform repository: target
resolution, notebook loading, dependency linking with assertion
propagation, registry name resolution, graph validation (duplicates and
cycles), trailing-semicolon checks, and the SQLX block extractor.

The embedding follows `core/actions/notebook.ts` where that source is
available; the remaining components (target resolver, linker, registry,
validator, block extractor) are modelled from the specification, with the
repository's test expectations as concrete anchors.
-/

namespace Dataform

/-! ## Targets and project configuration -/

/-- Target of an action: a database/schema/name address. -/
structure Target where
  database : String
  schema : String
  name : String
deriving DecidableEq

/-- Modelled from the spec: per-action target configuration before session
transforms are applied; database and schema may be explicitly overridden,
the name is always present (§4.3). -/
structure ActionTargetConfig where
  database : Option String
  schema : Option String
  name : String
deriving DecidableEq

/-- Modelled from the spec: project-level settings relevant to target
resolution (`workflow_settings.yaml`): defaults plus the environment
transforms `projectSuffix`, `datasetSuffix` and `namePrefix` (the latter is
called `namePre` here). -/
structure ProjectConfig where
  defaultDatabase : String
  defaultSchema : String
  projectSuffix : Option String
  datasetSuffix : Option String
  namePre : Option String
deriving DecidableEq

/-- Append an environment suffix to a default: `"{default}_{suffix}"` when
the suffix is configured, the default unchanged otherwise. -/
def withSuffix (base : String) (suffix : Option String) : String :=
  match suffix with
  | none => base
  | some s => base ++ "_" ++ s

/-- Apply the name transform `"{prefix}_{name}"` when a prefix is
configured. -/
def withNamePre (p : Option String) (nm : String) : String :=
  match p with
  | none => nm
  | some s => s ++ "_" ++ nm

/-- Modelled from the spec: the canonical project config is the active
config with no suffix/prefix transforms (§4.3). -/
def canonicalProjectConfig (pc : ProjectConfig) : ProjectConfig :=
  { defaultDatabase := pc.defaultDatabase
    defaultSchema := pc.defaultSchema
    projectSuffix := none
    datasetSuffix := none
    namePre := none }

/-- Modelled from the spec: `applySessionToTarget` (called by the notebook
constructor). Explicit per-action database/schema overrides are kept;
otherwise the project default is used and, if configured, suffixed. The
name receives the active name prefix unless the action is a Declaration
(§4.3). -/
def applySessionToTarget (t : ActionTargetConfig) (pc : ProjectConfig)
    (isDeclaration : Bool) : Target :=
  { database :=
      match t.database with
      | some d => d
      | none => withSuffix pc.defaultDatabase pc.projectSuffix
    schema :=
      match t.schema with
      | some s => s
      | none => withSuffix pc.defaultSchema pc.datasetSuffix
    name := if isDeclaration then t.name else withNamePre pc.namePre t.name }

/-- Canonical target: the session transform applied against the canonical
project config. -/
def canonicalTargetOf (t : ActionTargetConfig) (pc : ProjectConfig)
    (isDeclaration : Bool) : Target :=
  applySessionToTarget t (canonicalProjectConfig pc) isDeclaration

/-! ## Notebook JSON and `stripNotebookOutputs` (from `core/actions/notebook.ts`) -/

/-- JSON values stored in a notebook file. -/
inductive JVal where
  | null : JVal
  | bool (b : Bool) : JVal
  | num (n : Int) : JVal
  | str (s : String) : JVal
  | arr (elems : List JVal) : JVal
  | obj (fields : List (String × JVal)) : JVal

/-- Lookup of a key in a JSON object (first binding wins, as in
JavaScript property access). -/
def jlookup (fields : List (String × JVal)) (k : String) : Option JVal :=
  match fields with
  | [] => none
  | (k2, v) :: rest => if k2 = k then some v else jlookup rest k

/-- Test for key presence, mirroring the JavaScript `in` operator. -/
def hasKey (fields : List (String × JVal)) (k : String) : Bool :=
  match fields with
  | [] => false
  | (k2, _) :: rest => k2 = k || hasKey rest k

/-- Assignment to an existing key, mirroring `cell.outputs = []`: the value
of the key is replaced in place, every other binding is untouched. -/
def setKey : List (String × JVal) → String → JVal → List (String × JVal)
  | [], _, _ => []
  | (k2, w) :: rest, k, v =>
    if k2 = k then (k, v) :: setKey rest k v else (k2, w) :: setKey rest k v

/-- Per-cell step of `stripNotebookOutputs`: a cell that has an `outputs`
field gets it rewritten to an empty array, other cells are unchanged. -/
def stripCellFields (fields : List (String × JVal)) : List (String × JVal) :=
  if hasKey fields "outputs" then setKey fields "outputs" (JVal.arr []) else fields

/-- Cell-level wrapper of `stripCellFields`. -/
def stripCell (cell : JVal) : JVal :=
  match cell with
  | JVal.obj fields => JVal.obj (stripCellFields fields)
  | other => other

/-- Embedding of `stripNotebookOutputs` from `core/actions/notebook.ts`:
a notebook without a top-level `cells` field is an error naming the file;
otherwise every cell's `outputs` field (when present) is emptied. -/
def stripNotebookOutputs (notebookAsJson : List (String × JVal)) (path : String) :
    Except String (List (String × JVal)) :=
  if hasKey notebookAsJson "cells" = false then
    Except.error ("Notebook at " ++ path ++ " is invalid: cells field not present")
  else
    match jlookup notebookAsJson "cells" with
    | some (JVal.arr cells) =>
        Except.ok (setKey notebookAsJson "cells" (JVal.arr (cells.map stripCell)))
    | _ => Except.ok notebookAsJson

/-! ## Notebook target derivation (from `core/actions/notebook.ts`) -/

/-- Path component after the last slash. -/
def lastPathComponent (l : List Char) : List Char :=
  l.foldl (fun acc c => if c = '/' then [] else acc ++ [c]) []

/-- Modelled from the spec: `Path.basename` of `df/core/path` (not under
src/), which strips the directory and the file extension; the test suite
fixes `basename "notebook.ipynb" = "notebook"`. -/
def basename (fileName : String) : String :=
  String.mk ((lastPathComponent fileName.toList).takeWhile (fun c => !(c = '.')))

/-- Notebook action configuration fields used by the constructor; an empty
name models an unset proto field. -/
structure NotebookConfig where
  name : String
  project : Option String
  dataset : Option String
  filename : String
deriving DecidableEq

/-- Name defaulting from the constructor of `Notebook`: when no name is
set, the basename of the filename is used. -/
def notebookConfigName (config : NotebookConfig) : String :=
  if config.name = "" then basename config.filename else config.name

/-- Target config built from a notebook action config, mirroring
`actionConfigToCompiledGraphTarget`. -/
def notebookTargetConfig (config : NotebookConfig) : ActionTargetConfig :=
  { database := config.project, schema := config.dataset, name := notebookConfigName config }

/-- Effective target of a notebook action, as assigned by the constructor
via `applySessionToTarget` with the active project config. -/
def notebookEffectiveTarget (config : NotebookConfig) (pc : ProjectConfig) : Target :=
  applySessionToTarget (notebookTargetConfig config) pc false

/-- Canonical target of a notebook action, as assigned by the constructor
via `applySessionToTarget` with the canonical project config. -/
def notebookCanonicalTarget (config : NotebookConfig) (pc : ProjectConfig) : Target :=
  applySessionToTarget (notebookTargetConfig config) (canonicalProjectConfig pc) false

/-! ## Dependency linking and assertion propagation -/

/-- Modelled from the spec: the registered shape of an action that the
linker consults — its effective target, its canonical target, and (for
synthesized or user-authored assertions) the parent action's target. -/
structure ActionInfo where
  target : Target
  canonicalTarget : Target
  parentAction : Option Target
deriving DecidableEq

/-- Modelled from the spec: one dependency reference site of an action —
the referenced target plus the tri-state `includeDependentAssertions`
flag (unset, explicitly true, or explicitly false). -/
structure DepRef where
  target : Target
  includeDependentAssertions : Option Bool
deriving DecidableEq

/-- Targets of all assertion actions whose `parentAction` is the given
target, in registry order. -/
def assertionsForParent (registry : List ActionInfo) (b : Target) : List Target :=
  (registry.filter (fun a => a.parentAction = some b)).map (fun a => a.target)

/-- Append a dependency target unless it is already present (ordered,
de-duplicated dependency list). -/
def addDependencyTarget (acc : List Target) (t : Target) : List Target :=
  if t ∈ acc then acc else acc ++ [t]

/-- Modelled from the spec: the propagation decision for one reference
site — an explicit `includeDependentAssertions` value wins, an unset flag
inherits the action's own `dependOnDependencyAssertions` default. -/
def resolvedInclude (dependOnDependencyAssertions : Bool) (r : DepRef) : Bool :=
  r.includeDependentAssertions.getD dependOnDependencyAssertions

/-- Linking one dependency reference: the referenced target itself is
added, then, when propagation is on for this site, every assertion whose
parent is the referenced target, all de-duplicated. -/
def linkStep (dependOnDependencyAssertions : Bool) (registry : List ActionInfo)
    (acc : List Target) (r : DepRef) : List Target :=
  let acc1 := addDependencyTarget acc r.target
  if resolvedInclude dependOnDependencyAssertions r then
    (assertionsForParent registry r.target).foldl addDependencyTarget acc1
  else acc1

/-- Modelled from the spec: the dependency-target list of an action,
obtained by linking its reference sites in order (§4.4). -/
def linkDependencies (dependOnDependencyAssertions : Bool) (registry : List ActionInfo)
    (refs : List DepRef) : List Target :=
  refs.foldl (linkStep dependOnDependencyAssertions registry) []

/-! ## Conflicting `includeDependentAssertions` detection -/

/-- Explicitly set `includeDependentAssertions` values among an action's
reference sites for one dependency target. -/
def explicitFlags (refs : List DepRef) (b : Target) : List Bool :=
  (refs.filter (fun r => r.target = b)).filterMap (fun r => r.includeDependentAssertions)

/-- Decide whether the sites referencing a target explicitly disagree on
`includeDependentAssertions`. -/
def hasConflict (refs : List DepRef) (b : Target) : Bool :=
  decide (true ∈ explicitFlags refs b) && decide (false ∈ explicitFlags refs b)

/-- Distinct targets referenced by an action's sites. -/
def distinctTargets (refs : List DepRef) : List Target :=
  (refs.map (fun r => r.target)).dedup

/-- Error message for a conflicting dependency, naming the dependency. -/
def conflictMessage (b : Target) : String :=
  "Conflicting \"includeDependentAssertions\" properties are not allowed. Dependency "
    ++ b.name ++ " has different values set for this property."

/-- Modelled from the spec: one recoverable error per dependency whose
reference sites disagree on the explicit flag. -/
def conflictErrors (refs : List DepRef) : List String :=
  ((distinctTargets refs).filter (fun b => hasConflict refs b)).map conflictMessage

/-! ## Registry and bare-name resolution -/

/-- Errors produced by the dependency linker. -/
inductive LinkError where
  | couldNotResolve (name : String) : LinkError
  | ambiguous (name : String) (suggestions : List String) : LinkError
deriving DecidableEq

/-- Qualified `schema.name` form of a target, used in ambiguity
suggestions. -/
def qualifiedName (t : Target) : String :=
  t.schema ++ "." ++ t.name

/-- All registered targets matching a bare name. -/
def candidatesFor (registry : List Target) (nm : String) : List Target :=
  registry.filter (fun t => t.name = nm)

/-- Modelled from the spec: resolving a bare-name reference against the
registry — zero candidates is a recoverable could-not-resolve error, one
candidate resolves, more than one is a recoverable ambiguity error listing
every qualified candidate; an unresolved reference yields empty text
(§4.4). -/
def resolveBareName (registry : List Target) (nm : String) : String × List LinkError :=
  match candidatesFor registry nm with
  | [] => ("", [LinkError.couldNotResolve nm])
  | [t] => ("`" ++ t.schema ++ "." ++ t.name ++ "`", [])
  | t1 :: t2 :: rest =>
      ("", [LinkError.ambiguous nm ((t1 :: t2 :: rest).map qualifiedName)])

/-! ## Graph validation: duplicate targets -/

/-- Errors produced by the whole-graph validator. -/
inductive ValidationError where
  | duplicateName (t : Target) : ValidationError
  | duplicateCanonical (t : Target) : ValidationError
  | circular (chain : List Target) : ValidationError
deriving DecidableEq

/-- Number of registered actions sharing an effective target. -/
def countTarget (actions : List ActionInfo) (t : Target) : Nat :=
  (actions.filter (fun a => a.target = t)).length

/-- Number of registered actions sharing a canonical target. -/
def countCanonical (actions : List ActionInfo) (t : Target) : Nat :=
  (actions.filter (fun a => a.canonicalTarget = t)).length

/-- Name-scope duplicate errors: one entry for each action whose effective
target is shared. -/
def nameDupErrors (actions : List ActionInfo) : List ValidationError :=
  (actions.map (fun a =>
    if 2 ≤ countTarget actions a.target then [ValidationError.duplicateName a.target]
    else [])).flatten

/-- Canonical-scope duplicate errors: one entry for each action whose
canonical target is shared. -/
def canonicalDupErrors (actions : List ActionInfo) : List ValidationError :=
  (actions.map (fun a =>
    if 2 ≤ countCanonical actions a.canonicalTarget then
      [ValidationError.duplicateCanonical a.canonicalTarget]
    else [])).flatten

/-- Per-action duplicate errors in report order: the name-scope check and
the canonical-scope check each produce their own entry. -/
def duplicateErrorsFor (actions : List ActionInfo) (a : ActionInfo) : List ValidationError :=
  (if 2 ≤ countTarget actions a.target then [ValidationError.duplicateName a.target] else [])
    ++ (if 2 ≤ countCanonical actions a.canonicalTarget then
          [ValidationError.duplicateCanonical a.canonicalTarget]
        else [])

/-- Modelled from the spec: duplicate detection over the whole graph, both
scopes checked independently for every action (§4.6). -/
def duplicateErrors (actions : List ActionInfo) : List ValidationError :=
  (actions.map (duplicateErrorsFor actions)).flatten

/-! ## Graph validation: cycle detection -/

/-- Dependency adjacency: the graph maps each action's target to its
dependency targets. -/
def depsOf (g : List (Target × List Target)) (t : Target) : List Target :=
  ((g.find? (fun e => e.1 = t)).map (fun e => e.2)).getD []

/-- Drop elements of a path until the given target is found (the suffix of
the path starting at the target). -/
def dropUntil (t : Target) : List Target → List Target
  | [] => []
  | x :: rest => if x = t then x :: rest else dropUntil t rest

/-- First successful result of a fallible function over a list. -/
def firstSome (f : α → Option β) : List α → Option β
  | [] => none
  | a :: rest =>
    match f a with
    | some b => some b
    | none => firstSome f rest

/-- Modelled from the spec: fuel-bounded depth-first search for a cycle.
The path records the dependency chain walked so far; reaching a target
already on the path reports the chain from that target onwards, closed by
repeating it (§4.6). -/
def walkCycle (g : List (Target × List Target)) : Nat → List Target → Target →
    Option (List Target)
  | 0, _, _ => none
  | fuel + 1, path, t =>
    if t ∈ path then some (dropUntil t path ++ [t])
    else firstSome (fun d => walkCycle g fuel (path ++ [t]) d) (depsOf g t)

/-- Cycle search started from every registered action, first hit
reported. -/
def detectCircularDeps (g : List (Target × List Target)) : Option (List Target) :=
  firstSome (fun t => walkCycle g (g.length + 1) [] t) (g.map (fun e => e.1))

/-- Whole-graph validation output: the graph is always returned together
with the collected recoverable errors. -/
structure ValidationResult where
  actions : List ActionInfo
  errors : List ValidationError
deriving DecidableEq

/-- Modelled from the spec: the graph validator — duplicate detection in
both scopes plus cycle detection; compilation still returns the graph
(§4.6, §4.7). -/
def validateGraph (actions : List ActionInfo) (g : List (Target × List Target)) :
    ValidationResult :=
  { actions := actions
    errors := duplicateErrors actions ++
      (match detectCircularDeps g with
       | some c => [ValidationError.circular c]
       | none => []) }

/-- Edge relation of the dependency graph. -/
def edgeR (g : List (Target × List Target)) (a b : Target) : Prop :=
  b ∈ depsOf g a

instance (g : List (Target × List Target)) (a b : Target) : Decidable (edgeR g a b) :=
  inferInstanceAs (Decidable (b ∈ depsOf g a))

/-- Shape of a correctly reported cycle chain: a non-empty duplicate-free
cycle followed by a repetition of its first target, with every consecutive
pair (the closing pair included) a dependency edge. -/
def IsReportedCycle (g : List (Target × List Target)) (c : List Target) : Prop :=
  ∃ c₀ h, c = c₀ ++ [h] ∧ c₀.head? = some h ∧ c₀.Nodup ∧ List.Chain' (edgeR g) c

/-! ## Trailing semicolon detection -/

/-- Whitespace test used by the trailing-semicolon check and the block
extractor. -/
def isWsChar (c : Char) : Bool :=
  c = ' ' || c = '\t' || c = '\n' || c = '\r'

/-- Modelled from the spec: a statement is flagged when its last
non-whitespace character is a semicolon. -/
def endsWithSemicolon (s : String) : Bool :=
  decide ((s.toList.reverse.dropWhile isWsChar).head? = some ';')

/-- Modelled from the spec: one recoverable error per statement ending in
a trailing semicolon (§4.1). -/
def semicolonErrors (queries : List String) : List String :=
  (queries.filter (fun q => endsWithSemicolon q)).map
    (fun _ => "Semi-colons are not allowed at the end of SQL statements.")

/-- Compilation output of a list of statements: the statements are always
returned together with the collected recoverable errors. -/
structure OperationResult where
  queries : List String
  errors : List String
deriving DecidableEq

/-- Modelled from the spec: compiling statements never aborts on trailing
semicolons; the graph is returned with the errors collected. -/
def compileOperations (queries : List String) : OperationResult :=
  { queries := queries, errors := semicolonErrors queries }

/-! ## SQLX block extractor -/

/-- Lexical states of the single left-to-right scan of a SQL-template
file (§4.1). -/
inductive QMode where
  | normal : QMode
  | lineComment : QMode
  | blockComment : QMode
  | single : QMode
  | double : QMode
  | triple : QMode
  | backtick : QMode
deriving DecidableEq

/-- Backtick character (code point 96). -/
def backtickChar : Char := Char.ofNat 96

/-- Identifier characters; a keyword block is recognized only at a
non-identifier boundary. -/
def isIdentChar (c : Char) : Bool :=
  c.isAlphanum || c = '_'

/-- Prepend the consumed character to the inner text of a successful
scan. -/
def consInner (c : Char) (r : Option (List Char × List Char)) :
    Option (List Char × List Char) :=
  r.map (fun p => (c :: p.1, p.2))

/-- Modelled from the spec: scan for the closing brace of a keyword block.
Brace balance respects the nested string and comment states; inside a
string or comment only that state's own terminator is recognized and
backslash-escaped characters pass through verbatim (§4.1). Returns the
inner text and the remainder after the closing brace. -/
def blockEndF : Nat → List Char → Nat → QMode → Option (List Char × List Char)
  | 0, _, _, _ => none
  | fuel + 1, l, depth, m =>
    match m, l with
    | _, [] => none
    | QMode.normal, '\x7d' :: cs =>
        if depth = 0 then some ([], cs)
        else consInner '\x7d' (blockEndF fuel cs (depth - 1) QMode.normal)
    | QMode.normal, '\x7b' :: cs =>
        consInner '\x7b' (blockEndF fuel cs (depth + 1) QMode.normal)
    | QMode.normal, '/' :: '/' :: cs =>
        consInner '/' (consInner '/' (blockEndF fuel cs depth QMode.lineComment))
    | QMode.normal, '-' :: '-' :: cs =>
        consInner '-' (consInner '-' (blockEndF fuel cs depth QMode.lineComment))
    | QMode.normal, '/' :: '*' :: cs =>
        consInner '/' (consInner '*' (blockEndF fuel cs depth QMode.blockComment))
    | QMode.normal, '"' :: '"' :: '"' :: cs =>
        consInner '"' (consInner '"' (consInner '"' (blockEndF fuel cs depth QMode.triple)))
    | QMode.normal, '"' :: cs => consInner '"' (blockEndF fuel cs depth QMode.double)
    | QMode.normal, '\'' :: cs => consInner '\'' (blockEndF fuel cs depth QMode.single)
    | QMode.normal, c :: cs =>
        consInner c (blockEndF fuel cs depth
          (if c = backtickChar then QMode.backtick else QMode.normal))
    | QMode.lineComment, '\n' :: cs => consInner '\n' (blockEndF fuel cs depth QMode.normal)
    | QMode.lineComment, c :: cs => consInner c (blockEndF fuel cs depth QMode.lineComment)
    | QMode.blockComment, '*' :: '/' :: cs =>
        consInner '*' (consInner '/' (blockEndF fuel cs depth QMode.normal))
    | QMode.blockComment, c :: cs => consInner c (blockEndF fuel cs depth QMode.blockComment)
    | QMode.single, '\\' :: c :: cs =>
        consInner '\\' (consInner c (blockEndF fuel cs depth QMode.single))
    | QMode.single, '\'' :: cs => consInner '\'' (blockEndF fuel cs depth QMode.normal)
    | QMode.single, c :: cs => consInner c (blockEndF fuel cs depth QMode.single)
    | QMode.double, '\\' :: c :: cs =>
        consInner '\\' (consInner c (blockEndF fuel cs depth QMode.double))
    | QMode.double, '"' :: cs => consInner '"' (blockEndF fuel cs depth QMode.normal)
    | QMode.double, c :: cs => consInner c (blockEndF fuel cs depth QMode.double)
    | QMode.triple, '"' :: '"' :: '"' :: cs =>
        consInner '"' (consInner '"' (consInner '"' (blockEndF fuel cs depth QMode.normal)))
    | QMode.triple, '\\' :: c :: cs =>
        consInner '\\' (consInner c (blockEndF fuel cs depth QMode.triple))
    | QMode.triple, c :: cs => consInner c (blockEndF fuel cs depth QMode.triple)
    | QMode.backtick, c :: cs =>
        consInner c (blockEndF fuel cs depth
          (if c = backtickChar then QMode.normal else QMode.backtick))

/-- Kinds of top-level keyword blocks of a SQL-template file. -/
inductive BlockKind where
  | config : BlockKind
  | js : BlockKind
  | preOps : BlockKind
  | postOps : BlockKind
deriving DecidableEq

/-- Keyword characters introducing each block kind. -/
def kwChars : BlockKind → List Char
  | BlockKind.config => "config".toList
  | BlockKind.js => "js".toList
  | BlockKind.preOps => "pre_operations".toList
  | BlockKind.postOps => "post_operations".toList

/-- Strip an expected keyword from the front of the input. -/
def stripKw : List Char → List Char → Option (List Char)
  | [], l => some l
  | _ :: _, [] => none
  | k :: ks, c :: cs => if c = k then stripKw ks cs else none

/-- Match one block kind at the head of the input: the keyword, optional
whitespace, then an opening brace. Returns the delimiter text (keyword,
whitespace and opening brace, verbatim) and the remainder. -/
def matchKindAt (k : BlockKind) (l : List Char) : Option (List Char × List Char) :=
  match stripKw (kwChars k) l with
  | none => none
  | some r1 =>
    match r1.dropWhile isWsChar with
    | '\x7b' :: r2 => some (kwChars k ++ r1.takeWhile isWsChar ++ ['\x7b'], r2)
    | _ => none

/-- Match any block kind at the head of the input. -/
def matchBlockAt (l : List Char) : Option (BlockKind × List Char × List Char) :=
  match matchKindAt BlockKind.config l with
  | some (d, r) => some (BlockKind.config, d, r)
  | none =>
  match matchKindAt BlockKind.js l with
  | some (d, r) => some (BlockKind.js, d, r)
  | none =>
  match matchKindAt BlockKind.preOps l with
  | some (d, r) => some (BlockKind.preOps, d, r)
  | none =>
  match matchKindAt BlockKind.postOps l with
  | some (d, r) => some (BlockKind.postOps, d, r)
  | none => none

/-- Match a complete keyword block at the head of the input: keyword
delimiter plus a balanced brace-delimited region. Returns the kind, the
delimiter text, the inner text and the remainder after the closing
brace. -/
def matchBlockOpen (l : List Char) : Option (BlockKind × List Char × List Char × List Char) :=
  match matchBlockAt l with
  | none => none
  | some (k, d, after) =>
    match blockEndF after.length after 0 QMode.normal with
    | none => none
    | some (inner, rest) => some (k, d, inner, rest)

/-- Ordered output of the scan: verbatim body text interleaved with
keyword blocks (delimiter and inner text kept verbatim; the closing brace
is implicit). -/
inductive Chunk where
  | text (s : List Char) : Chunk
  | block (k : BlockKind) (delim : List Char) (inner : List Char) : Chunk
deriving DecidableEq

/-- Prepend body text to a chunk list, merging adjacent text chunks. -/
def pushText (s : List Char) : List Chunk → List Chunk
  | Chunk.text t :: r => Chunk.text (s ++ t) :: r
  | r => Chunk.text s :: r

/-- Source text of one chunk, delimiters included. -/
def renderChunk : Chunk → List Char
  | Chunk.text s => s
  | Chunk.block _ d i => d ++ i ++ ['\x7d']

/-- Source text of a chunk list, delimiters included. -/
def renderChunks (cs : List Chunk) : List Char :=
  (cs.map renderChunk).flatten

/-- Modelled from the spec: the single left-to-right scan of a
SQL-template file (§4.1). Keyword blocks are recognized only in normal
state at a non-identifier boundary and only when followed by a balanced
brace region; every other character contributes verbatim to the body. -/
def scanF : Nat → List Char → QMode → Bool → List Chunk
  | 0, _, _, _ => []
  | fuel + 1, l, m, bdry =>
    match m, l with
    | _, [] => []
    | QMode.normal, l =>
      match (if bdry then matchBlockOpen l else none) with
      | some (k, d, inner, rest) =>
          Chunk.block k d inner :: scanF fuel rest QMode.normal true
      | none =>
        match l with
        | [] => []
        | '/' :: '/' :: cs => pushText ['/', '/'] (scanF fuel cs QMode.lineComment true)
        | '-' :: '-' :: cs => pushText ['-', '-'] (scanF fuel cs QMode.lineComment true)
        | '/' :: '*' :: cs => pushText ['/', '*'] (scanF fuel cs QMode.blockComment true)
        | '"' :: '"' :: '"' :: cs => pushText ['"', '"', '"'] (scanF fuel cs QMode.triple true)
        | '"' :: cs => pushText ['"'] (scanF fuel cs QMode.double true)
        | '\'' :: cs => pushText ['\''] (scanF fuel cs QMode.single true)
        | c :: cs =>
            pushText [c] (scanF fuel cs
              (if c = backtickChar then QMode.backtick else QMode.normal)
              (!(isIdentChar c)))
    | QMode.lineComment, '\n' :: cs => pushText ['\n'] (scanF fuel cs QMode.normal true)
    | QMode.lineComment, c :: cs => pushText [c] (scanF fuel cs QMode.lineComment true)
    | QMode.blockComment, '*' :: '/' :: cs =>
        pushText ['*', '/'] (scanF fuel cs QMode.normal true)
    | QMode.blockComment, c :: cs => pushText [c] (scanF fuel cs QMode.blockComment true)
    | QMode.single, '\\' :: c :: cs => pushText ['\\', c] (scanF fuel cs QMode.single true)
    | QMode.single, '\'' :: cs => pushText ['\''] (scanF fuel cs QMode.normal true)
    | QMode.single, c :: cs => pushText [c] (scanF fuel cs QMode.single true)
    | QMode.double, '\\' :: c :: cs => pushText ['\\', c] (scanF fuel cs QMode.double true)
    | QMode.double, '"' :: cs => pushText ['"'] (scanF fuel cs QMode.normal true)
    | QMode.double, c :: cs => pushText [c] (scanF fuel cs QMode.double true)
    | QMode.triple, '"' :: '"' :: '"' :: cs =>
        pushText ['"', '"', '"'] (scanF fuel cs QMode.normal true)
    | QMode.triple, '\\' :: c :: cs => pushText ['\\', c] (scanF fuel cs QMode.triple true)
    | QMode.triple, c :: cs => pushText [c] (scanF fuel cs QMode.triple true)
    | QMode.backtick, c :: cs =>
        pushText [c] (scanF fuel cs
          (if c = backtickChar then QMode.normal else QMode.backtick) true)

/-- Body text contributed by one chunk. -/
def chunkBodyText : Chunk → List Char
  | Chunk.text s => s
  | Chunk.block _ _ _ => []

/-- Body of a scanned file: the concatenated text chunks. -/
def extractedBody (cs : List Chunk) : List Char :=
  (cs.map chunkBodyText).flatten

/-- Inner texts of all blocks of one kind, in source order. -/
def blockInners (k : BlockKind) (cs : List Chunk) : List (List Char) :=
  cs.filterMap (fun c =>
    match c with
    | Chunk.block k2 _ i => if k2 = k then some i else none
    | _ => none)

/-- Output of the block extractor (§4.1). -/
structure SqlxFile where
  configText : Option String
  scriptText : Option String
  preOperations : List String
  postOperations : List String
  body : String
deriving DecidableEq

/-- Chunks of a source file, scanned with adequate fuel. -/
def sqlxChunks (s : String) : List Chunk :=
  scanF s.toList.length s.toList QMode.normal true

/-- Modelled from the spec: the block extractor over one SQL-template
file (§4.1). -/
def extractSqlx (s : String) : SqlxFile :=
  { configText := ((blockInners BlockKind.config (sqlxChunks s)).map
      (fun l => String.mk l)).head?
    scriptText := ((blockInners BlockKind.js (sqlxChunks s)).map
      (fun l => String.mk l)).head?
    preOperations := (blockInners BlockKind.preOps (sqlxChunks s)).map
      (fun l => String.mk l)
    postOperations := (blockInners BlockKind.postOps (sqlxChunks s)).map
      (fun l => String.mk l)
    body := String.mk (extractedBody (sqlxChunks s)) }

/-! ## Concrete repository test files (sqlx special characters suite) -/

/-- Contents of the test file of "backticks appear to users as written". -/
def backticksFileContents : String :=
  "select\n  \"`\",\n  \"\"\"`\"\",\nfrom `location`"

/-- SQL contents of the test "backslashes appear to users as written". -/
def specialSqlContents : String :=
  "select\n  regexp_extract('01a_data_engine', '^(\\d\x7b2\x7d\\w)'),\n  regexp_extract('01a_data_engine', '^(\\\\d\x7b2\x7d\\\\w)'),\n  regexp_extract('\\\\', ''),\n  regexp_extract(\"\", r\"[0-9]\\\"*\"),\n  \"\"\"\\ \\? \\\\\"\"\""

/-- Full file of the test "backslashes appear to users as written": a
config block, the SQL body, and a pre-operations block. -/
def backslashesFileContents : String :=
  "config \x7b type: \"table\" \x7d" ++ specialSqlContents
    ++ "pre_operations \x7b " ++ specialSqlContents ++ " \x7d"

/-- SQL contents of the test "strings appear to users as written". -/
def stringsSqlContents : String :=
  "select\n\"\"\"\ntriple\nquotes\n\"\"\",\n\"asd\\\"123'def\",\n'asd\\'123\"def',\n\nselect\n\"\"\"\ntriple\nquotes\n\"\"\",\n\"asd\\\"123'def\",\n'asd\\'123\"def'"

/-- Full file of the test "strings appear to users as written": a config
block, the SQL body, and a post-operations block. -/
def stringsFileContents : String :=
  "config \x7b type: \"table\" \x7d" ++ stringsSqlContents
    ++ "post_operations \x7b " ++ stringsSqlContents ++ " \x7d"

end Dataform

namespace Dataform

/-! ## Concrete fixtures from the repository test suite -/

/-- Target of table `A` in the "Assertions as dependencies" tests. -/
def targetA : Target := ⟨"defaultProject", "defaultDataset", "A"⟩

/-- Target of the assertion synthesized from `A`'s `rowConditions`. -/
def targetArow : Target :=
  ⟨"defaultProject", "defaultDataset", "defaultDataset_A_assertions_rowConditions"⟩

/-- Target of the user-authored assertion `A_assert` on `A`. -/
def targetAassert : Target := ⟨"defaultProject", "defaultDataset", "A_assert"⟩

/-- Target of table `C` in the same tests. -/
def targetC : Target := ⟨"defaultProject", "defaultDataset", "C"⟩

/-- Registered action for table `A`. -/
def actionA : ActionInfo := ⟨targetA, targetA, none⟩

/-- Registered action for `A`'s synthesized row-conditions assertion. -/
def actionArow : ActionInfo := ⟨targetArow, targetArow, some targetA⟩

/-- Registered action for the assertion `A_assert`. -/
def actionAassert : ActionInfo := ⟨targetAassert, targetAassert, some targetA⟩

/-- Registry of the "Assertions as dependencies" tests. -/
def assertionsRegistry : List ActionInfo := [actionA, actionArow, actionAassert]

/-- Target of view `B` in the action-configs tests. -/
def targetB : Target := ⟨"defaultProject", "defaultDataset", "B"⟩

/-- Action used twice in the test "fails when non-unique target". -/
def dupAction : ActionInfo :=
  ⟨⟨"defaultProject", "otherDataset", "name"⟩,
   ⟨"defaultProject", "otherDataset", "name"⟩, none⟩

/-- Result of the conflicting-flags check: the actions are always returned
together with the collected recoverable errors. -/
structure ConflictCheckResult where
  actions : List ActionInfo
  errors : List String
deriving DecidableEq

/-- Modelled from the spec: conflicting `includeDependentAssertions`
detection is recoverable — the graph is returned with the errors
collected. -/
def checkIncludeFlagConflicts (actions : List ActionInfo) (refs : List DepRef) :
    ConflictCheckResult :=
  { actions := actions, errors := conflictErrors refs }

end Dataform

namespace Dataform

/-! ## Lemmas: the block extractor reconstructs its input -/

theorem consInner_eq_some {c : Char} {r : Option (List Char × List Char)}
    {i s : List Char} :
    consInner c r = some (i, s) ↔ ∃ i2, r = some (i2, s) ∧ i = c :: i2 := by
  simp only [consInner, Option.map_eq_some']
  constructor
  · rintro ⟨⟨a, b⟩, hr, heq⟩
    simp only [Prod.mk.injEq] at heq
    obtain ⟨h1, h2⟩ := heq
    exact ⟨a, by rw [hr, h2], h1.symm⟩
  · rintro ⟨i2, hr, rfl⟩
    exact ⟨(i2, s), hr, rfl⟩

theorem blockEndF_succ (fuel : Nat) (l : List Char) (depth : Nat) (m : QMode) :
    blockEndF (fuel + 1) l depth m =
      match m, l with
      | _, [] => none
      | QMode.normal, '\x7d' :: cs =>
          if depth = 0 then some ([], cs)
          else consInner '\x7d' (blockEndF fuel cs (depth - 1) QMode.normal)
      | QMode.normal, '\x7b' :: cs =>
          consInner '\x7b' (blockEndF fuel cs (depth + 1) QMode.normal)
      | QMode.normal, '/' :: '/' :: cs =>
          consInner '/' (consInner '/' (blockEndF fuel cs depth QMode.lineComment))
      | QMode.normal, '-' :: '-' :: cs =>
          consInner '-' (consInner '-' (blockEndF fuel cs depth QMode.lineComment))
      | QMode.normal, '/' :: '*' :: cs =>
          consInner '/' (consInner '*' (blockEndF fuel cs depth QMode.blockComment))
      | QMode.normal, '"' :: '"' :: '"' :: cs =>
          consInner '"' (consInner '"' (consInner '"' (blockEndF fuel cs depth QMode.triple)))
      | QMode.normal, '"' :: cs => consInner '"' (blockEndF fuel cs depth QMode.double)
      | QMode.normal, '\'' :: cs => consInner '\'' (blockEndF fuel cs depth QMode.single)
      | QMode.normal, c :: cs =>
          consInner c (blockEndF fuel cs depth
            (if c = backtickChar then QMode.backtick else QMode.normal))
      | QMode.lineComment, '\n' :: cs => consInner '\n' (blockEndF fuel cs depth QMode.normal)
      | QMode.lineComment, c :: cs => consInner c (blockEndF fuel cs depth QMode.lineComment)
      | QMode.blockComment, '*' :: '/' :: cs =>
          consInner '*' (consInner '/' (blockEndF fuel cs depth QMode.normal))
      | QMode.blockComment, c :: cs => consInner c (blockEndF fuel cs depth QMode.blockComment)
      | QMode.single, '\\' :: c :: cs =>
          consInner '\\' (consInner c (blockEndF fuel cs depth QMode.single))
      | QMode.single, '\'' :: cs => consInner '\'' (blockEndF fuel cs depth QMode.normal)
      | QMode.single, c :: cs => consInner c (blockEndF fuel cs depth QMode.single)
      | QMode.double, '\\' :: c :: cs =>
          consInner '\\' (consInner c (blockEndF fuel cs depth QMode.double))
      | QMode.double, '"' :: cs => consInner '"' (blockEndF fuel cs depth QMode.normal)
      | QMode.double, c :: cs => consInner c (blockEndF fuel cs depth QMode.double)
      | QMode.triple, '"' :: '"' :: '"' :: cs =>
          consInner '"' (consInner '"' (consInner '"' (blockEndF fuel cs depth QMode.normal)))
      | QMode.triple, '\\' :: c :: cs =>
          consInner '\\' (consInner c (blockEndF fuel cs depth QMode.triple))
      | QMode.triple, c :: cs => consInner c (blockEndF fuel cs depth QMode.triple)
      | QMode.backtick, c :: cs =>
          consInner c (blockEndF fuel cs depth
            (if c = backtickChar then QMode.normal else QMode.backtick)) := rfl

theorem blockEndF_eq (fuel : Nat) (l : List Char) (depth : Nat) (m : QMode)
    (inner rest : List Char)
    (h : blockEndF fuel l depth m = some (inner, rest)) :
    l = inner ++ '\x7d' :: rest := by
  induction fuel generalizing l depth m inner rest with
  | zero => simp [blockEndF] at h
  | succ fuel ih =>
    rw [blockEndF_succ] at h
    split at h
    all_goals
      first
      | exact absurd h (by simp)
      | (simp only [consInner_eq_some] at h
         try obtain ⟨a1, h, rfl⟩ := h
         try obtain ⟨a2, h, rfl⟩ := h
         try obtain ⟨a3, h, rfl⟩ := h
         simp [ih _ _ _ _ _ h])
      | (split at h
         · simp only [Option.some.injEq, Prod.mk.injEq] at h
           obtain ⟨rfl, rfl⟩ := h
           simp
         · simp only [consInner_eq_some] at h
           obtain ⟨a1, h, rfl⟩ := h
           simp [ih _ _ _ _ _ h])

theorem stripKw_eq : ∀ (ks l r : List Char), stripKw ks l = some r → l = ks ++ r := by
  intro ks
  induction ks with
  | nil =>
    intro l r h
    simp only [stripKw, Option.some.injEq] at h
    simp [h]
  | cons k ks ih =>
    intro l r h
    cases l with
    | nil => simp [stripKw] at h
    | cons c cs =>
      rw [stripKw] at h
      split at h
      · next hc => simp [hc, ih _ _ h]
      · exact absurd h (by simp)

theorem matchKindAt_eq (k : BlockKind) (l d r : List Char)
    (h : matchKindAt k l = some (d, r)) : l = d ++ r := by
  rw [matchKindAt] at h
  split at h
  · exact absurd h (by simp)
  · next r1 hstrip =>
    split at h
    · next r2 hdrop =>
      simp only [Option.some.injEq, Prod.mk.injEq] at h
      obtain ⟨rfl, rfl⟩ := h
      have h1 : l = kwChars k ++ r1 := stripKw_eq _ _ _ hstrip
      have h2 : r1.takeWhile isWsChar ++ r1.dropWhile isWsChar = r1 :=
        List.takeWhile_append_dropWhile isWsChar r1
      rw [hdrop] at h2
      rw [← h2] at h1
      rw [h1]
      simp
    · exact absurd h (by simp)

theorem matchBlockAt_eq (l : List Char) (k : BlockKind) (d r : List Char)
    (h : matchBlockAt l = some (k, d, r)) : l = d ++ r := by
  rw [matchBlockAt] at h
  split at h
  · next p hm =>
    simp only [Option.some.injEq, Prod.mk.injEq] at h
    obtain ⟨rfl, rfl, rfl⟩ := h
    exact matchKindAt_eq _ _ _ _ hm
  · next =>
    split at h
    · next p hm =>
      simp only [Option.some.injEq, Prod.mk.injEq] at h
      obtain ⟨rfl, rfl, rfl⟩ := h
      exact matchKindAt_eq _ _ _ _ hm
    · next =>
      split at h
      · next p hm =>
        simp only [Option.some.injEq, Prod.mk.injEq] at h
        obtain ⟨rfl, rfl, rfl⟩ := h
        exact matchKindAt_eq _ _ _ _ hm
      · next =>
        split at h
        · next p hm =>
          simp only [Option.some.injEq, Prod.mk.injEq] at h
          obtain ⟨rfl, rfl, rfl⟩ := h
          exact matchKindAt_eq _ _ _ _ hm
        · exact absurd h (by simp)

theorem matchBlockOpen_eq (l : List Char) (k : BlockKind) (d inner rest : List Char)
    (h : matchBlockOpen l = some (k, d, inner, rest)) :
    l = d ++ inner ++ '\x7d' :: rest := by
  rw [matchBlockOpen] at h
  split at h
  · exact absurd h (by simp)
  · next k2 d2 after hat =>
    split at h
    · exact absurd h (by simp)
    · next inner2 rest2 hend =>
      simp only [Option.some.injEq, Prod.mk.injEq] at h
      obtain ⟨rfl, rfl, rfl, rfl⟩ := h
      have h1 := matchBlockAt_eq _ _ _ _ hat
      have h2 := blockEndF_eq _ _ _ _ _ _ hend
      rw [h1, h2]
      simp

theorem renderChunks_nil : renderChunks [] = [] := rfl

theorem renderChunks_cons (c : Chunk) (cs : List Chunk) :
    renderChunks (c :: cs) = renderChunk c ++ renderChunks cs := by
  simp [renderChunks]

theorem renderChunks_pushText (s : List Char) (cs : List Chunk) :
    renderChunks (pushText s cs) = s ++ renderChunks cs := by
  cases cs with
  | nil => simp [pushText, renderChunks, renderChunk]
  | cons c cs2 =>
    cases c with
    | text t => simp [pushText, renderChunks, renderChunk]
    | block k d i => simp [pushText, renderChunks, renderChunk]

theorem scanF_zero (l : List Char) (m : QMode) (bdry : Bool) :
    scanF 0 l m bdry = [] := rfl

theorem scanF_succ (fuel : Nat) (l : List Char) (m : QMode) (bdry : Bool) :
    scanF (fuel + 1) l m bdry =
    match m, l with
    | _, [] => []
    | QMode.normal, l =>
      match (if bdry then matchBlockOpen l else none) with
      | some (k, d, inner, rest) =>
          Chunk.block k d inner :: scanF fuel rest QMode.normal true
      | none =>
        match l with
        | [] => []
        | '/' :: '/' :: cs => pushText ['/', '/'] (scanF fuel cs QMode.lineComment true)
        | '-' :: '-' :: cs => pushText ['-', '-'] (scanF fuel cs QMode.lineComment true)
        | '/' :: '*' :: cs => pushText ['/', '*'] (scanF fuel cs QMode.blockComment true)
        | '"' :: '"' :: '"' :: cs => pushText ['"', '"', '"'] (scanF fuel cs QMode.triple true)
        | '"' :: cs => pushText ['"'] (scanF fuel cs QMode.double true)
        | '\'' :: cs => pushText ['\''] (scanF fuel cs QMode.single true)
        | c :: cs =>
            pushText [c] (scanF fuel cs
              (if c = backtickChar then QMode.backtick else QMode.normal)
              (!(isIdentChar c)))
    | QMode.lineComment, '\n' :: cs => pushText ['\n'] (scanF fuel cs QMode.normal true)
    | QMode.lineComment, c :: cs => pushText [c] (scanF fuel cs QMode.lineComment true)
    | QMode.blockComment, '*' :: '/' :: cs =>
        pushText ['*', '/'] (scanF fuel cs QMode.normal true)
    | QMode.blockComment, c :: cs => pushText [c] (scanF fuel cs QMode.blockComment true)
    | QMode.single, '\\' :: c :: cs => pushText ['\\', c] (scanF fuel cs QMode.single true)
    | QMode.single, '\'' :: cs => pushText ['\''] (scanF fuel cs QMode.normal true)
    | QMode.single, c :: cs => pushText [c] (scanF fuel cs QMode.single true)
    | QMode.double, '\\' :: c :: cs => pushText ['\\', c] (scanF fuel cs QMode.double true)
    | QMode.double, '"' :: cs => pushText ['"'] (scanF fuel cs QMode.normal true)
    | QMode.double, c :: cs => pushText [c] (scanF fuel cs QMode.double true)
    | QMode.triple, '"' :: '"' :: '"' :: cs =>
        pushText ['"', '"', '"'] (scanF fuel cs QMode.normal true)
    | QMode.triple, '\\' :: c :: cs => pushText ['\\', c] (scanF fuel cs QMode.triple true)
    | QMode.triple, c :: cs => pushText [c] (scanF fuel cs QMode.triple true)
    | QMode.backtick, c :: cs =>
        pushText [c] (scanF fuel cs
          (if c = backtickChar then QMode.normal else QMode.backtick) true) := rfl

theorem scanF_render : ∀ (fuel : Nat) (l : List Char) (m : QMode) (bdry : Bool),
    l.length ≤ fuel → renderChunks (scanF fuel l m bdry) = l := by
  intro fuel
  induction fuel with
  | zero =>
    intro l m bdry hlen
    have hl : l = [] := List.length_eq_zero.mp (Nat.le_zero.mp hlen)
    subst hl
    rw [scanF_zero]
    rfl
  | succ fuel ih =>
    intro l m bdry hlen
    rw [scanF_succ]
    split
    all_goals
      first
      | (rw [renderChunks_nil]; done)
      | (rw [renderChunks_pushText,
            ih _ _ _ (by simp only [List.length_cons] at hlen; omega)]
         simp
         done)
      | (split
         · next k d inner rest ho =>
           cases bdry with
           | false => simp at ho
           | true =>
             simp only [if_true] at ho
             have hl2 := matchBlockOpen_eq _ _ _ _ _ ho
             have hlen2 : rest.length ≤ fuel := by
               rw [hl2] at hlen
               simp only [List.length_append, List.length_cons] at hlen
               omega
             rw [renderChunks_cons, ih _ _ _ hlen2, hl2]
             simp [renderChunk]
         · split
           all_goals
             first
             | (rw [renderChunks_nil]; done)
             | (rw [renderChunks_pushText,
                   ih _ _ _ (by simp only [List.length_cons] at hlen; omega)]
                simp
                done))

end Dataform

namespace Dataform

/-! ## Lemmas: JSON object update -/

theorem hasKey_eq_true_of_jlookup {fs : List (String × JVal)} {k : String} {v : JVal}
    (h : jlookup fs k = some v) : hasKey fs k = true := by
  induction fs with
  | nil => simp [jlookup] at h
  | cons p rest ih =>
    obtain ⟨k2, w⟩ := p
    rw [jlookup] at h
    rw [hasKey]
    split at h
    · next hk => simp [hk]
    · next hk => simp [hk, ih h]

theorem jlookup_setKey_self {fs : List (String × JVal)} {k : String} (v : JVal)
    (h : hasKey fs k = true) : jlookup (setKey fs k v) k = some v := by
  induction fs with
  | nil => simp [hasKey] at h
  | cons p rest ih =>
    obtain ⟨k2, w⟩ := p
    rw [hasKey] at h
    rw [setKey]
    by_cases hk : k2 = k
    · rw [if_pos hk]
      simp [jlookup]
    · rw [if_neg hk]
      rw [jlookup]
      simp only [if_neg hk]
      simp only [hk, Bool.false_or, decide_eq_true_eq] at h
      exact ih h

theorem jlookup_setKey_other {fs : List (String × JVal)} {k k2 : String} (v : JVal)
    (h : k2 ≠ k) : jlookup (setKey fs k v) k2 = jlookup fs k2 := by
  induction fs with
  | nil => simp [setKey, jlookup]
  | cons p rest ih =>
    obtain ⟨k3, w⟩ := p
    rw [setKey]
    by_cases hk : k3 = k
    · rw [if_pos hk]
      rw [jlookup, jlookup]
      rw [if_neg (fun hc => h hc.symm), if_neg (fun hc => h (hk ▸ hc).symm)]
      exact ih
    · rw [if_neg hk]
      rw [jlookup, jlookup]
      split
      · rfl
      · exact ih

end Dataform

namespace Dataform

set_option maxRecDepth 40000

/-! ## Claim theorems -/

/-- C1: every byte of a SQL-template file lands verbatim in exactly one
extracted segment or block delimiter — rendering the scanned chunks
(each block's delimiters restored) reproduces the source exactly, so each
segment preserves source text byte-for-byte except for the block's own
delimiters; concretely, on the repository's special-character test files
(embedded backticks, escaped backslashes, triple-quoted strings) the
extracted query/preOps/postOps equal the raw SQL text minus block
delimiters. -/
theorem sqlx_segments_preserve_source_bytes (s : String) :
    renderChunks (sqlxChunks s) = s.toList
    ∧ extractSqlx backticksFileContents = ⟨none, none, [], [], backticksFileContents⟩
    ∧ (extractSqlx backslashesFileContents).body = specialSqlContents
    ∧ (extractSqlx backslashesFileContents).preOperations
        = [" " ++ specialSqlContents ++ " "]
    ∧ (extractSqlx backslashesFileContents).configText = some " type: \"table\" "
    ∧ (extractSqlx stringsFileContents).body = stringsSqlContents
    ∧ (extractSqlx stringsFileContents).postOperations
        = [" " ++ stringsSqlContents ++ " "] :=
  ⟨scanF_render _ _ _ _ le_rfl, by decide, by decide, by decide, by decide,
    by decide, by decide⟩

/-- C2: the canonical target is invariant under any change of
`projectSuffix`, `datasetSuffix` and `namePrefix`, while the effective
target varies deterministically with them: with no per-action override the
database is suffixed as `"{defaultDatabase}_{projectSuffix}"`, the schema
as `"{defaultSchema}_{datasetSuffix}"`, the name prefixed as
`"{namePrefix}_{name}"` — except for Declarations, whose name is never
prefixed; explicit per-action overrides are kept unsuffixed. -/
theorem canonical_invariant_and_effective_formulas
    (t : ActionTargetConfig) (pc : ProjectConfig) (ps2 ds2 np2 : Option String)
    (ps ds np db sch nm odb osch : String) (isDecl : Bool) :
    (canonicalTargetOf t
        { pc with projectSuffix := ps2, datasetSuffix := ds2, namePre := np2 } isDecl
      = canonicalTargetOf t pc isDecl)
    ∧ (applySessionToTarget ⟨none, none, nm⟩ ⟨db, sch, some ps, some ds, some np⟩ false
      = ⟨db ++ "_" ++ ps, sch ++ "_" ++ ds, np ++ "_" ++ nm⟩)
    ∧ (applySessionToTarget ⟨none, none, nm⟩ ⟨db, sch, some ps, some ds, some np⟩ true
      = ⟨db ++ "_" ++ ps, sch ++ "_" ++ ds, nm⟩)
    ∧ (applySessionToTarget ⟨some odb, some osch, nm⟩
        ⟨db, sch, some ps, some ds, some np⟩ false
      = ⟨odb, osch, np ++ "_" ++ nm⟩)
    ∧ (applySessionToTarget ⟨none, none, nm⟩ ⟨db, sch, none, none, none⟩ false
      = ⟨db, sch, nm⟩) :=
  ⟨rfl, rfl, rfl, rfl, rfl⟩

/-- C9: `stripNotebookOutputs` errors with a message naming the file when
the notebook JSON has no top-level `cells` field; otherwise it rewrites
exactly the cells that have an `outputs` field to carry an empty outputs
array, leaving cells without `outputs` and every other cell field
unchanged. -/
theorem strip_notebook_outputs_spec (nb : List (String × JVal)) (path : String) :
    (hasKey nb "cells" = false →
      stripNotebookOutputs nb path
        = Except.error ("Notebook at " ++ path ++ " is invalid: cells field not present"))
    ∧ (∀ cells, jlookup nb "cells" = some (JVal.arr cells) →
      stripNotebookOutputs nb path
        = Except.ok (setKey nb "cells" (JVal.arr (cells.map stripCell))))
    ∧ (∀ fields, hasKey fields "outputs" = true →
      jlookup (stripCellFields fields) "outputs" = some (JVal.arr []))
    ∧ (∀ fields k, k ≠ "outputs" →
      jlookup (stripCellFields fields) k = jlookup fields k)
    ∧ (∀ fields, hasKey fields "outputs" = false → stripCellFields fields = fields) := by
  refine ⟨?_, ?_, ?_, ?_, ?_⟩
  · intro h
    simp [stripNotebookOutputs, h]
  · intro cells hc
    have hk := hasKey_eq_true_of_jlookup hc
    simp [stripNotebookOutputs, hk, hc]
  · intro fields h
    rw [stripCellFields, if_pos h]
    exact jlookup_setKey_self _ h
  · intro fields k hk
    rw [stripCellFields]
    split
    · exact jlookup_setKey_other _ hk
    · rfl
  · intro fields h
    simp [stripCellFields, h]

/-- Witness for C9: the notebook of the repository test "notebook cell
output is removed" (markdown and code cells with outputs, one raw cell
without), plus the missing-cells error case. -/
theorem strip_notebook_outputs_spec_witness :
    jlookup [("cells", JVal.arr
        [JVal.obj [("cell_type", JVal.str "markdown"),
                   ("source", JVal.arr [JVal.str "# Some title"]),
                   ("outputs", JVal.arr [JVal.str "something"])],
         JVal.obj [("cell_type", JVal.str "code"),
                   ("source", JVal.arr [JVal.str "print('hi')"]),
                   ("outputs", JVal.arr [JVal.str "hi"])],
         JVal.obj [("cell_type", JVal.str "raw"),
                   ("source", JVal.arr [JVal.str "print('hi')"])]])] "cells"
      = some (JVal.arr
        [JVal.obj [("cell_type", JVal.str "markdown"),
                   ("source", JVal.arr [JVal.str "# Some title"]),
                   ("outputs", JVal.arr [JVal.str "something"])],
         JVal.obj [("cell_type", JVal.str "code"),
                   ("source", JVal.arr [JVal.str "print('hi')"]),
                   ("outputs", JVal.arr [JVal.str "hi"])],
         JVal.obj [("cell_type", JVal.str "raw"),
                   ("source", JVal.arr [JVal.str "print('hi')"])]])
    ∧ stripNotebookOutputs [("cells", JVal.arr
        [JVal.obj [("cell_type", JVal.str "markdown"),
                   ("source", JVal.arr [JVal.str "# Some title"]),
                   ("outputs", JVal.arr [JVal.str "something"])],
         JVal.obj [("cell_type", JVal.str "code"),
                   ("source", JVal.arr [JVal.str "print('hi')"]),
                   ("outputs", JVal.arr [JVal.str "hi"])],
         JVal.obj [("cell_type", JVal.str "raw"),
                   ("source", JVal.arr [JVal.str "print('hi')"])]])]
        "definitions/notebook.ipynb"
      = Except.ok (setKey [("cells", JVal.arr
        [JVal.obj [("cell_type", JVal.str "markdown"),
                   ("source", JVal.arr [JVal.str "# Some title"]),
                   ("outputs", JVal.arr [JVal.str "something"])],
         JVal.obj [("cell_type", JVal.str "code"),
                   ("source", JVal.arr [JVal.str "print('hi')"]),
                   ("outputs", JVal.arr [JVal.str "hi"])],
         JVal.obj [("cell_type", JVal.str "raw"),
                   ("source", JVal.arr [JVal.str "print('hi')"])]])] "cells"
          (JVal.arr
            ([JVal.obj [("cell_type", JVal.str "markdown"),
                        ("source", JVal.arr [JVal.str "# Some title"]),
                        ("outputs", JVal.arr [JVal.str "something"])],
              JVal.obj [("cell_type", JVal.str "code"),
                        ("source", JVal.arr [JVal.str "print('hi')"]),
                        ("outputs", JVal.arr [JVal.str "hi"])],
              JVal.obj [("cell_type", JVal.str "raw"),
                        ("source", JVal.arr [JVal.str "print('hi')"])]].map stripCell)))
    ∧ hasKey ([] : List (String × JVal)) "cells" = false
    ∧ stripNotebookOutputs [] "definitions/notebook.ipynb"
      = Except.error ("Notebook at " ++ "definitions/notebook.ipynb"
          ++ " is invalid: cells field not present") :=
  ⟨rfl, (strip_notebook_outputs_spec _ _).2.1 _ rfl, rfl,
    (strip_notebook_outputs_spec _ _).1 rfl⟩

/-- C10: a notebook config without an explicit name takes the basename of
the configured filename as its target name (`"notebook.ipynb"` yields
`"notebook"`), and this derived name then goes through the same
effective/canonical target transforms as an explicit name. -/
theorem notebook_name_defaults_to_basename (pc : ProjectConfig)
    (proj ds : Option String) (fname : String) :
    (notebookEffectiveTarget ⟨"", proj, ds, fname⟩ pc
      = notebookEffectiveTarget ⟨basename fname, proj, ds, fname⟩ pc)
    ∧ (notebookCanonicalTarget ⟨"", proj, ds, fname⟩ pc
      = notebookCanonicalTarget ⟨basename fname, proj, ds, fname⟩ pc)
    ∧ basename "notebook.ipynb" = "notebook"
    ∧ notebookEffectiveTarget ⟨"", none, none, "notebook.ipynb"⟩
        ⟨"defaultProject", "defaultDataset", none, none, some "prefix"⟩
      = ⟨"defaultProject", "defaultDataset", "prefix_notebook"⟩
    ∧ notebookCanonicalTarget ⟨"", none, none, "notebook.ipynb"⟩
        ⟨"defaultProject", "defaultDataset", none, none, some "prefix"⟩
      = ⟨"defaultProject", "defaultDataset", "notebook"⟩
    ∧ notebookEffectiveTarget ⟨"", none, none, "notebook.ipynb"⟩
        ⟨"defaultProject", "defaultDataset", none, none, none⟩
      = ⟨"defaultProject", "defaultDataset", "notebook"⟩ := by
  have hcn : notebookConfigName ⟨"", proj, ds, fname⟩
      = notebookConfigName ⟨basename fname, proj, ds, fname⟩ := by
    simp [notebookConfigName]
  refine ⟨?_, ?_, by decide, by decide, by decide, by decide⟩
  · simp only [notebookEffectiveTarget, notebookTargetConfig, hcn]
  · simp only [notebookCanonicalTarget, notebookTargetConfig, hcn]

end Dataform

namespace Dataform

/-! ## Lemmas: the dependency-linking fold -/

theorem mem_addDependencyTarget_self (acc : List Target) (t : Target) :
    t ∈ addDependencyTarget acc t := by
  rw [addDependencyTarget]
  split
  · assumption
  · simp

theorem mem_addDependencyTarget_of_mem {acc : List Target} {x : Target} (t : Target)
    (h : x ∈ acc) : x ∈ addDependencyTarget acc t := by
  rw [addDependencyTarget]
  split
  · exact h
  · simp [h]

theorem nodup_addDependencyTarget {acc : List Target} (t : Target)
    (h : acc.Nodup) : (addDependencyTarget acc t).Nodup := by
  rw [addDependencyTarget]
  split
  · exact h
  · next hn => simp [List.nodup_append, h, hn]

theorem mem_foldl_addDependencyTarget_of_mem {x : Target} :
    ∀ (l acc : List Target), x ∈ acc → x ∈ l.foldl addDependencyTarget acc := by
  intro l
  induction l with
  | nil => intro acc h; simpa using h
  | cons a l ih =>
    intro acc h
    exact ih _ (mem_addDependencyTarget_of_mem _ h)

theorem mem_foldl_addDependencyTarget_of_mem_list {x : Target} :
    ∀ (l acc : List Target), x ∈ l → x ∈ l.foldl addDependencyTarget acc := by
  intro l
  induction l with
  | nil => intro acc h; simp at h
  | cons a l ih =>
    intro acc h
    rcases List.mem_cons.mp h with rfl | h2
    · exact mem_foldl_addDependencyTarget_of_mem l (addDependencyTarget acc x)
        (mem_addDependencyTarget_self acc x)
    · exact ih _ h2

theorem nodup_foldl_addDependencyTarget :
    ∀ (l acc : List Target), acc.Nodup → (l.foldl addDependencyTarget acc).Nodup := by
  intro l
  induction l with
  | nil => intro acc h; simpa using h
  | cons a l ih =>
    intro acc h
    exact ih _ (nodup_addDependencyTarget _ h)

theorem mem_linkStep_of_mem {x : Target} (d : Bool) (registry : List ActionInfo)
    (acc : List Target) (r : DepRef) (h : x ∈ acc) : x ∈ linkStep d registry acc r := by
  rw [linkStep]
  split
  · exact mem_foldl_addDependencyTarget_of_mem _ _ (mem_addDependencyTarget_of_mem _ h)
  · exact mem_addDependencyTarget_of_mem _ h

theorem linkStep_target_mem (d : Bool) (registry : List ActionInfo)
    (acc : List Target) (r : DepRef) : r.target ∈ linkStep d registry acc r := by
  rw [linkStep]
  split
  · exact mem_foldl_addDependencyTarget_of_mem _ _ (mem_addDependencyTarget_self _ _)
  · exact mem_addDependencyTarget_self _ _

theorem linkStep_assertions_mem {x : Target} (d : Bool) (registry : List ActionInfo)
    (acc : List Target) (r : DepRef) (hinc : resolvedInclude d r = true)
    (hx : x ∈ assertionsForParent registry r.target) : x ∈ linkStep d registry acc r := by
  rw [linkStep]
  rw [if_pos hinc]
  exact mem_foldl_addDependencyTarget_of_mem_list _ _ hx

theorem nodup_linkStep (d : Bool) (registry : List ActionInfo)
    (acc : List Target) (r : DepRef) (h : acc.Nodup) :
    (linkStep d registry acc r).Nodup := by
  rw [linkStep]
  split
  · exact nodup_foldl_addDependencyTarget _ _ (nodup_addDependencyTarget _ h)
  · exact nodup_addDependencyTarget _ h

theorem mem_foldl_linkStep_of_mem {x : Target} (d : Bool) (registry : List ActionInfo) :
    ∀ (refs : List DepRef) (acc : List Target), x ∈ acc →
      x ∈ refs.foldl (linkStep d registry) acc := by
  intro refs
  induction refs with
  | nil => intro acc h; simpa using h
  | cons r refs ih =>
    intro acc h
    exact ih _ (mem_linkStep_of_mem _ _ _ _ h)

theorem nodup_foldl_linkStep (d : Bool) (registry : List ActionInfo) :
    ∀ (refs : List DepRef) (acc : List Target), acc.Nodup →
      (refs.foldl (linkStep d registry) acc).Nodup := by
  intro refs
  induction refs with
  | nil => intro acc h; simpa using h
  | cons r refs ih =>
    intro acc h
    exact ih _ (nodup_linkStep _ _ _ _ h)

end Dataform

namespace Dataform

/-- C3 counterexample: in the repository's test "When
dependOnDependencyAssertions=true and includeDependentAssertions=false,
the assertions related to dependency should not be added", an action with
`dependOnDependencyAssertions = true` references `A` with an explicit
`includeDependentAssertions := false`; `A`'s assertion `A_assert` is a
registered assertion with parent `A`, yet it is not added to the
dependency list — refuting the claim's unconditional "flag true or
reference true" disjunction. -/
theorem include_flag_false_overrides_counterexample :
    (actionAassert ∈ assertionsRegistry
      ∧ actionAassert.parentAction = some targetA
      ∧ (⟨targetA, some false⟩ : DepRef) ∈ [(⟨targetA, some false⟩ : DepRef)]
      ∧ (⟨targetA, some false⟩ : DepRef).target = targetA)
    ∧ targetAassert ∉ linkDependencies true assertionsRegistry [⟨targetA, some false⟩]
    ∧ linkDependencies true assertionsRegistry [⟨targetA, some false⟩] = [targetA] := by
  refine ⟨⟨by decide, by decide, by decide, by decide⟩, by decide, by decide⟩

/-- C3 (amended): for an action `A` depending on `B`, if the reference to
`B` explicitly sets `includeDependentAssertions := true`, or leaves it
unset while `A`'s `dependOnDependencyAssertions` flag is true (an explicit
per-reference value overrides the action-level flag), then `B` itself and
every assertion whose parent is `B` are in `A`'s linked dependency list,
and the list is duplicate-free. -/
theorem dependent_assertions_propagation (d : Bool) (registry : List ActionInfo)
    (refs : List DepRef) (r : DepRef) (a : ActionInfo)
    (hr : r ∈ refs)
    (hinc : r.includeDependentAssertions = some true
      ∨ (r.includeDependentAssertions = none ∧ d = true))
    (ha : a ∈ registry) (hp : a.parentAction = some r.target) :
    r.target ∈ linkDependencies d registry refs
    ∧ a.target ∈ linkDependencies d registry refs
    ∧ (linkDependencies d registry refs).Nodup := by
  have hres : resolvedInclude d r = true := by
    rcases hinc with h | ⟨h1, h2⟩
    · simp [resolvedInclude, h]
    · simp [resolvedInclude, h1, h2]
  have hx : a.target ∈ assertionsForParent registry r.target := by
    rw [assertionsForParent]
    exact List.mem_map_of_mem _ (List.mem_filter.mpr ⟨ha, by simp [hp]⟩)
  obtain ⟨l1, l2, rfl⟩ := List.append_of_mem hr
  rw [linkDependencies, List.foldl_append, List.foldl_cons]
  refine ⟨?_, ?_, ?_⟩
  · exact mem_foldl_linkStep_of_mem _ _ _ _ (linkStep_target_mem _ _ _ _)
  · exact mem_foldl_linkStep_of_mem _ _ _ _ (linkStep_assertions_mem _ _ _ _ hres hx)
  · exact nodup_foldl_linkStep _ _ _ _
      (nodup_linkStep _ _ _ _ (nodup_foldl_linkStep _ _ _ _ List.nodup_nil))

/-- Witness for amended C3: the test scenarios "When
dependOnDependencyAssertions property is set to true, assertions from A
are added as dependencies" (dependency list `[A, A_rowConditions_assertion,
A_assert]`) and "Assertions added through includeDependentAssertions and
explicitly listed in dependencies are deduplicated" (`A_assert` first as a
declared dependency, not added a second time). -/
theorem dependent_assertions_propagation_witness :
    targetA ∈ linkDependencies true assertionsRegistry [⟨targetA, none⟩]
    ∧ targetAassert ∈ linkDependencies true assertionsRegistry [⟨targetA, none⟩]
    ∧ (linkDependencies true assertionsRegistry [⟨targetA, none⟩]).Nodup
    ∧ linkDependencies true assertionsRegistry [⟨targetA, none⟩]
        = [targetA, targetArow, targetAassert]
    ∧ linkDependencies false assertionsRegistry
        [⟨targetAassert, none⟩, ⟨targetA, some true⟩]
        = [targetAassert, targetA, targetArow] := by
  have h := dependent_assertions_propagation true assertionsRegistry
    [⟨targetA, none⟩] ⟨targetA, none⟩ actionAassert (by decide)
    (Or.inr ⟨rfl, rfl⟩) (by decide) (by decide)
  exact ⟨h.1, h.2.1, h.2.2, by decide, by decide⟩

/-- C4: when an action references the same dependency target at more than
one site with `includeDependentAssertions` explicitly set to different
values, the conflicting-flags check emits the recoverable error naming the
dependency, exactly once per conflicting dependency, and the graph is
still returned. -/
theorem conflicting_include_flags_single_error (actions : List ActionInfo)
    (refs : List DepRef) (r1 r2 : DepRef) (b : Target)
    (h1 : r1 ∈ refs) (h2 : r2 ∈ refs)
    (hb1 : r1.target = b) (hb2 : r2.target = b)
    (ht : r1.includeDependentAssertions = some true)
    (hf : r2.includeDependentAssertions = some false) :
    conflictMessage b ∈ conflictErrors refs
    ∧ ((distinctTargets refs).filter (fun x => hasConflict refs x)).count b = 1
    ∧ (checkIncludeFlagConflicts actions refs).actions = actions
    ∧ (checkIncludeFlagConflicts actions refs).errors = conflictErrors refs := by
  have hbmem : b ∈ distinctTargets refs := by
    rw [distinctTargets, List.mem_dedup]
    exact List.mem_map.mpr ⟨r1, h1, hb1⟩
  have htm : true ∈ explicitFlags refs b := by
    rw [explicitFlags]
    exact List.mem_filterMap.mpr ⟨r1, List.mem_filter.mpr ⟨h1, by simp [hb1]⟩, ht⟩
  have hfm : false ∈ explicitFlags refs b := by
    rw [explicitFlags]
    exact List.mem_filterMap.mpr ⟨r2, List.mem_filter.mpr ⟨h2, by simp [hb2]⟩, hf⟩
  have hconf : hasConflict refs b = true := by
    rw [hasConflict]
    simp [htm, hfm]
  refine ⟨?_, ?_, rfl, rfl⟩
  · rw [conflictErrors]
    exact List.mem_map_of_mem _ (List.mem_filter.mpr ⟨hbmem, hconf⟩)
  · exact List.count_eq_one_of_mem (List.Nodup.filter _ (List.nodup_dedup _))
      (List.mem_filter.mpr ⟨hbmem, hconf⟩)

/-- Witness for C4: the action-configs test scenario — dependency sites
`[A (true), B (unset), A (false)]` yield exactly the single error naming
`A`, and the check returns its actions unchanged. -/
theorem conflicting_include_flags_single_error_witness :
    conflictMessage targetA ∈
      conflictErrors [⟨targetA, some true⟩, ⟨targetB, none⟩, ⟨targetA, some false⟩]
    ∧ ((distinctTargets [⟨targetA, some true⟩, ⟨targetB, none⟩, ⟨targetA, some false⟩]).filter
        (fun x => hasConflict [⟨targetA, some true⟩, ⟨targetB, none⟩,
          ⟨targetA, some false⟩] x)).count targetA = 1
    ∧ (checkIncludeFlagConflicts [actionA]
        [⟨targetA, some true⟩, ⟨targetB, none⟩, ⟨targetA, some false⟩]).actions = [actionA]
    ∧ conflictErrors [⟨targetA, some true⟩, ⟨targetB, none⟩, ⟨targetA, some false⟩]
        = [conflictMessage targetA] := by
  have h := conflicting_include_flags_single_error [actionA]
    [⟨targetA, some true⟩, ⟨targetB, none⟩, ⟨targetA, some false⟩]
    ⟨targetA, some true⟩ ⟨targetA, some false⟩ targetA
    (by decide) (by decide) rfl rfl rfl rfl
  exact ⟨h.1, h.2.1, h.2.2.1, by decide⟩

/-- C5: a bare-name reference matching more than one registered action
resolves to empty text (left unresolved, no crash) with exactly one
recoverable ambiguity error that lists every qualified `schema.name`
candidate. -/
theorem ambiguous_resolution_lists_candidates (registry : List Target) (nm : String)
    (cs : List Target) (hc : candidatesFor registry nm = cs) (h2 : 2 ≤ cs.length) :
    (resolveBareName registry nm).1 = ""
    ∧ (resolveBareName registry nm).2
        = [LinkError.ambiguous nm (cs.map qualifiedName)]
    ∧ (resolveBareName registry nm).2.length = 1
    ∧ ∀ t ∈ cs, qualifiedName t ∈ cs.map qualifiedName := by
  rcases cs with _ | ⟨t1, _ | ⟨t2, rest⟩⟩
  · simp at h2
  · simp at h2
  · have he : resolveBareName registry nm
        = ("", [LinkError.ambiguous nm ((t1 :: t2 :: rest).map qualifiedName)]) := by
      rw [resolveBareName, hc]
    refine ⟨by rw [he], by rw [he], by rw [he]; rfl, ?_⟩
    intro t ht
    exact List.mem_map_of_mem _ ht

/-- Witness for C5: the test "fails when ambiguous resolve" — two actions
named `a` in schemas `foo` and `bar`; resolving `a` yields one error
listing `foo.a` and `bar.a`, and the reference resolves to empty text. -/
theorem ambiguous_resolution_lists_candidates_witness :
    (resolveBareName [⟨"defaultProject", "foo", "a"⟩, ⟨"defaultProject", "bar", "a"⟩,
        ⟨"defaultProject", "foo", "b"⟩] "a").1 = ""
    ∧ (resolveBareName [⟨"defaultProject", "foo", "a"⟩, ⟨"defaultProject", "bar", "a"⟩,
        ⟨"defaultProject", "foo", "b"⟩] "a").2
      = [LinkError.ambiguous "a"
          ([(⟨"defaultProject", "foo", "a"⟩ : Target),
            ⟨"defaultProject", "bar", "a"⟩].map qualifiedName)]
    ∧ (resolveBareName [⟨"defaultProject", "foo", "a"⟩, ⟨"defaultProject", "bar", "a"⟩,
        ⟨"defaultProject", "foo", "b"⟩] "a").2
      = [LinkError.ambiguous "a" ["foo.a", "bar.a"]] := by
  have h := ambiguous_resolution_lists_candidates
    [⟨"defaultProject", "foo", "a"⟩, ⟨"defaultProject", "bar", "a"⟩,
      ⟨"defaultProject", "foo", "b"⟩] "a"
    [⟨"defaultProject", "foo", "a"⟩, ⟨"defaultProject", "bar", "a"⟩]
    (by decide) (by decide)
  exact ⟨h.1, h.2.1, by decide⟩

end Dataform

namespace Dataform

/-! ## Lemmas: duplicate-target detection -/

theorem flatten_map_eq_nil {α β : Type} (fn : α → List β) :
    ∀ (L : List α), (∀ a ∈ L, fn a = []) → (L.map fn).flatten = [] := by
  intro L
  induction L with
  | nil => intro _; rfl
  | cons a l ih =>
    intro h
    simp only [List.map_cons, List.flatten_cons]
    rw [h a (by simp), ih (fun b hb => h b (by simp [hb]))]
    rfl

theorem countTarget_eq_count (actions : List ActionInfo) (t : Target) :
    countTarget actions t = (actions.map (fun a => a.target)).count t := by
  induction actions with
  | nil => rfl
  | cons a l ih =>
    rw [countTarget] at ih ⊢
    rw [List.filter_cons, List.map_cons, List.count_cons]
    by_cases h : a.target = t
    · simp [h, ih]
    · simp [h, ih]

theorem countCanonical_eq_count (actions : List ActionInfo) (t : Target) :
    countCanonical actions t = (actions.map (fun a => a.canonicalTarget)).count t := by
  induction actions with
  | nil => rfl
  | cons a l ih =>
    rw [countCanonical] at ih ⊢
    rw [List.filter_cons, List.map_cons, List.count_cons]
    by_cases h : a.canonicalTarget = t
    · simp [h, ih]
    · simp [h, ih]

theorem countTarget_map (h : ActionInfo → ActionInfo)
    (hh : ∀ a, (h a).target = a.target) (actions : List ActionInfo) (t : Target) :
    countTarget (actions.map h) t = countTarget actions t := by
  rw [countTarget_eq_count, countTarget_eq_count, List.map_map]
  congr 1
  exact List.map_congr_left (fun a _ => hh a)

theorem countCanonical_map (h : ActionInfo → ActionInfo)
    (hh : ∀ a, (h a).canonicalTarget = a.canonicalTarget)
    (actions : List ActionInfo) (t : Target) :
    countCanonical (actions.map h) t = countCanonical actions t := by
  rw [countCanonical_eq_count, countCanonical_eq_count, List.map_map]
  congr 1
  exact List.map_congr_left (fun a _ => hh a)

theorem nameDupErrors_map (h : ActionInfo → ActionInfo)
    (hh : ∀ a, (h a).target = a.target) (actions : List ActionInfo) :
    nameDupErrors (actions.map h) = nameDupErrors actions := by
  rw [nameDupErrors, nameDupErrors, List.map_map]
  congr 1
  apply List.map_congr_left
  intro a _
  simp only [Function.comp]
  rw [hh a, countTarget_map h hh]

theorem canonicalDupErrors_map (h : ActionInfo → ActionInfo)
    (hh : ∀ a, (h a).canonicalTarget = a.canonicalTarget) (actions : List ActionInfo) :
    canonicalDupErrors (actions.map h) = canonicalDupErrors actions := by
  rw [canonicalDupErrors, canonicalDupErrors, List.map_map]
  congr 1
  apply List.map_congr_left
  intro a _
  simp only [Function.comp]
  rw [hh a, countCanonical_map h hh]

/-- C6: within one compiled graph no two actions may share an effective
target nor a canonical target — with unique targets neither scope emits an
error; when violated the graph is still returned and each scope
independently contributes its own error entry for each offending action
(the name-scope check reads only effective targets, the canonical-scope
check only canonical targets). -/
theorem duplicate_targets_validated (actions : List ActionInfo)
    (g : List (Target × List Target)) (f : ActionInfo → Target) :
    ((actions.map (fun a => a.target)).Nodup → nameDupErrors actions = [])
    ∧ ((actions.map (fun a => a.canonicalTarget)).Nodup → canonicalDupErrors actions = [])
    ∧ (validateGraph actions g).actions = actions
    ∧ (∀ a ∈ actions, 2 ≤ countTarget actions a.target →
        ValidationError.duplicateName a.target ∈ (validateGraph actions g).errors)
    ∧ (∀ a ∈ actions, 2 ≤ countCanonical actions a.canonicalTarget →
        ValidationError.duplicateCanonical a.canonicalTarget ∈ (validateGraph actions g).errors)
    ∧ nameDupErrors (actions.map (fun a => ⟨a.target, f a, a.parentAction⟩))
        = nameDupErrors actions
    ∧ canonicalDupErrors (actions.map (fun a => ⟨f a, a.canonicalTarget, a.parentAction⟩))
        = canonicalDupErrors actions := by
  refine ⟨?_, ?_, rfl, ?_, ?_, ?_, ?_⟩
  · intro hnd
    rw [nameDupErrors]
    apply flatten_map_eq_nil
    intro a ha
    have h1 : countTarget actions a.target = 1 := by
      rw [countTarget_eq_count]
      exact List.count_eq_one_of_mem hnd (List.mem_map_of_mem _ ha)
    simp [h1]
  · intro hnd
    rw [canonicalDupErrors]
    apply flatten_map_eq_nil
    intro a ha
    have h1 : countCanonical actions a.canonicalTarget = 1 := by
      rw [countCanonical_eq_count]
      exact List.count_eq_one_of_mem hnd (List.mem_map_of_mem _ ha)
    simp [h1]
  · intro a ha hcnt
    apply List.mem_append_left
    rw [duplicateErrors]
    apply List.mem_flatten.mpr
    refine ⟨duplicateErrorsFor actions a, List.mem_map_of_mem _ ha, ?_⟩
    rw [duplicateErrorsFor, if_pos hcnt]
    exact List.mem_append_left _ (by simp)
  · intro a ha hcnt
    apply List.mem_append_left
    rw [duplicateErrors]
    apply List.mem_flatten.mpr
    refine ⟨duplicateErrorsFor actions a, List.mem_map_of_mem _ ha, ?_⟩
    rw [duplicateErrorsFor, if_pos hcnt]
    exact List.mem_append_right _ (by simp)
  · exact nameDupErrors_map
      (fun a => ⟨a.target, f a, a.parentAction⟩) (fun a => rfl) actions
  · exact canonicalDupErrors_map
      (fun a => ⟨f a, a.canonicalTarget, a.parentAction⟩) (fun a => rfl) actions

/-- Witness for C6: the test "fails when non-unique target" — two actions
with the same target produce, per action, one name-scope and one
canonical-scope error, in report order name/canonical/name/canonical, and
the graph is still returned. -/
theorem duplicate_targets_validated_witness :
    ValidationError.duplicateName dupAction.target
      ∈ (validateGraph [dupAction, dupAction] []).errors
    ∧ ValidationError.duplicateCanonical dupAction.canonicalTarget
      ∈ (validateGraph [dupAction, dupAction] []).errors
    ∧ (validateGraph [dupAction, dupAction] []).actions = [dupAction, dupAction]
    ∧ duplicateErrors [dupAction, dupAction]
      = [ValidationError.duplicateName dupAction.target,
         ValidationError.duplicateCanonical dupAction.canonicalTarget,
         ValidationError.duplicateName dupAction.target,
         ValidationError.duplicateCanonical dupAction.canonicalTarget] := by
  have h := duplicate_targets_validated [dupAction, dupAction] [] (fun a => a.target)
  exact ⟨h.2.2.2.1 dupAction (by decide) (by decide),
    h.2.2.2.2.1 dupAction (by decide) (by decide),
    h.2.2.1, by decide⟩

end Dataform

namespace Dataform

/-! ## Lemmas: trailing semicolon detection -/

theorem dropWhile_append_of_all {p : Char → Bool} :
    ∀ (a b : List Char), (∀ c ∈ a, p c = true) →
      (a ++ b).dropWhile p = b.dropWhile p := by
  intro a
  induction a with
  | nil => intro b _; rfl
  | cons c a ih =>
    intro b h
    rw [List.cons_append, List.dropWhile_cons, if_pos (h c (by simp))]
    exact ih b (fun x hx => h x (by simp [hx]))

/-- C8: a statement whose text ends in a semicolon followed only by
whitespace is flagged; a statement ending in any other non-whitespace
character is not; compilation of a statement list returns the statements
(the graph) together with exactly one recoverable error per offending
statement, each with the exact message "Semi-colons are not allowed at the
end of SQL statements.". -/
theorem trailing_semicolon_flagged (queries : List String) (body ws : List Char)
    (hws : ∀ c ∈ ws, isWsChar c = true) :
    endsWithSemicolon (String.mk (body ++ ';' :: ws)) = true
    ∧ (∀ c : Char, isWsChar c = false → ¬c = ';' →
        ∀ b : List Char, endsWithSemicolon (String.mk (b ++ [c])) = false)
    ∧ (semicolonErrors queries).length
        = (queries.filter (fun q => endsWithSemicolon q)).length
    ∧ (∀ msg ∈ semicolonErrors queries,
        msg = "Semi-colons are not allowed at the end of SQL statements.")
    ∧ (compileOperations queries).queries = queries
    ∧ (compileOperations queries).errors = semicolonErrors queries := by
  refine ⟨?_, ?_, ?_, ?_, rfl, rfl⟩
  · have h1 : (String.mk (body ++ ';' :: ws)).toList.reverse.dropWhile isWsChar
        = ';' :: body.reverse := by
      have h0 : (String.mk (body ++ ';' :: ws)).toList = body ++ ';' :: ws := rfl
      rw [h0, List.reverse_append, List.reverse_cons, List.append_assoc,
        List.singleton_append,
        dropWhile_append_of_all _ _ (fun c hc => hws c (List.mem_reverse.mp hc)),
        List.dropWhile_cons, if_neg (by decide)]
    rw [endsWithSemicolon, h1]
    simp
  · intro c hc hcs b
    have h1 : (String.mk (b ++ [c])).toList.reverse.dropWhile isWsChar
        = c :: b.reverse := by
      have h0 : (String.mk (b ++ [c])).toList = b ++ [c] := rfl
      rw [h0, List.reverse_append]
      simp only [List.reverse_singleton, List.singleton_append]
      rw [List.dropWhile_cons, if_neg (by simp [hc])]
    rw [endsWithSemicolon, h1]
    simp [hcs]
  · simp [semicolonErrors]
  · intro msg hm
    obtain ⟨q, _, rfl⟩ := List.mem_map.mp hm
    rfl

/-- Witness for C8: the test "semi-colons at the end of SQL statements
throws" — both `"SELECT 1;\n"` (semicolon before trailing newline) and
`"SELECT 1;"` are flagged, producing exactly two errors with the exact
message, and the statements are still returned. -/
theorem trailing_semicolon_flagged_witness :
    endsWithSemicolon (String.mk (("SELECT 1".toList) ++ ';' :: ['\n'])) = true
    ∧ (compileOperations ["SELECT 1;\n", "SELECT 1;"]).queries
        = ["SELECT 1;\n", "SELECT 1;"]
    ∧ (compileOperations ["SELECT 1;\n", "SELECT 1;"]).errors
        = ["Semi-colons are not allowed at the end of SQL statements.",
           "Semi-colons are not allowed at the end of SQL statements."]
    ∧ endsWithSemicolon "SELECT 1" = false := by
  have h := trailing_semicolon_flagged ["SELECT 1;\n", "SELECT 1;"]
    ("SELECT 1".toList) ['\n'] (by decide)
  exact ⟨h.1, h.2.2.2.2.1, by decide, by decide⟩

end Dataform

namespace Dataform

/-! ## Lemmas: cycle detection -/

theorem walkCycle_zero (g : List (Target × List Target)) (path : List Target)
    (t : Target) : walkCycle g 0 path t = none := rfl

theorem walkCycle_succ (g : List (Target × List Target)) (fuel : Nat)
    (path : List Target) (t : Target) :
    walkCycle g (fuel + 1) path t =
      if t ∈ path then some (dropUntil t path ++ [t])
      else firstSome (fun d => walkCycle g fuel (path ++ [t]) d) (depsOf g t) := rfl

theorem firstSome_eq_some {α β : Type} {f : α → Option β} :
    ∀ (l : List α) (b : β), firstSome f l = some b → ∃ a ∈ l, f a = some b := by
  intro l
  induction l with
  | nil => intro b h; simp [firstSome] at h
  | cons a l ih =>
    intro b h
    rw [firstSome] at h
    split at h
    · next hfa => exact ⟨a, by simp, by rw [hfa]; exact h.symm ▸ rfl⟩
    · obtain ⟨a2, ha2, hf2⟩ := ih b h
      exact ⟨a2, by simp [ha2], hf2⟩

theorem firstSome_eq_none {α β : Type} {f : α → Option β} :
    ∀ (l : List α), firstSome f l = none → ∀ a ∈ l, f a = none := by
  intro l
  induction l with
  | nil => intro _ a ha; simp at ha
  | cons b l ih =>
    intro h a ha
    rw [firstSome] at h
    split at h
    · exact absurd h (by simp)
    · next hfb =>
      rcases List.mem_cons.mp ha with rfl | ha2
      · exact hfb
      · exact ih h a ha2

theorem dropUntil_isSuffix (t : Target) : ∀ (l : List Target), (dropUntil t l) <:+ l := by
  intro l
  induction l with
  | nil => exact List.suffix_rfl
  | cons x rest ih =>
    rw [dropUntil]
    split
    · exact List.suffix_rfl
    · exact ih.trans (List.suffix_cons x rest)

theorem dropUntil_head {t : Target} : ∀ {l : List Target}, t ∈ l →
    (dropUntil t l).head? = some t := by
  intro l
  induction l with
  | nil => intro h; simp at h
  | cons x rest ih =>
    intro h
    rw [dropUntil]
    split
    · next hx => simp [hx]
    · next hx =>
      rcases List.mem_cons.mp h with rfl | h2
      · exact absurd rfl hx
      · exact ih h2

end Dataform

namespace Dataform

theorem walkCycle_sound (g : List (Target × List Target)) :
    ∀ (fuel : Nat) (path : List Target) (t : Target) (c : List Target),
      List.Chain' (edgeR g) (path ++ [t]) → path.Nodup →
      walkCycle g fuel path t = some c → IsReportedCycle g c := by
  intro fuel
  induction fuel with
  | zero => intro path t c _ _ h; simp [walkCycle_zero] at h
  | succ fuel ih =>
    intro path t c hch hnd hw
    rw [walkCycle_succ] at hw
    split at hw
    · next hmem =>
      simp only [Option.some.injEq] at hw
      subst hw
      refine ⟨dropUntil t path, t, rfl, dropUntil_head hmem, ?_, ?_⟩
      · exact List.Nodup.sublist (dropUntil_isSuffix t path).sublist hnd
      · have hsfx : dropUntil t path ++ [t] <:+ path ++ [t] := by
          obtain ⟨pre, hpre⟩ := dropUntil_isSuffix t path
          exact ⟨pre, by rw [← List.append_assoc, hpre]⟩
        exact hch.suffix hsfx
    · next hmem =>
      obtain ⟨d, hd, hw2⟩ := firstSome_eq_some _ _ hw
      apply ih (path ++ [t]) d c ?_ ?_ hw2
      · rw [List.chain'_append]
        refine ⟨hch, List.chain'_singleton d, ?_⟩
        intro x hx y hy
        simp only [List.getLast?_concat, Option.mem_def, Option.some.injEq] at hx
        simp only [List.head?_cons, Option.mem_def, Option.some.injEq] at hy
        subst hx
        subst hy
        exact hd
      · simp [List.nodup_append, hnd, hmem]

theorem detectCircularDeps_sound (g : List (Target × List Target)) (c : List Target)
    (h : detectCircularDeps g = some c) : IsReportedCycle g c := by
  rw [detectCircularDeps] at h
  obtain ⟨t, _, hw⟩ := firstSome_eq_some _ _ h
  exact walkCycle_sound g _ [] t c (by simp) List.nodup_nil hw

end Dataform

namespace Dataform

theorem walkCycle_none_step {g : List (Target × List Target)} {fuel : Nat}
    {path : List Target} {t : Target}
    (h : walkCycle g (fuel + 1) path t = none) :
    t ∉ path ∧ ∀ d ∈ depsOf g t, walkCycle g fuel (path ++ [t]) d = none := by
  rw [walkCycle_succ] at h
  split at h
  · exact absurd h (by simp)
  · next hmem => exact ⟨hmem, firstSome_eq_none _ h⟩

theorem getLast?_cons_eq_getLastD (x : Target) :
    ∀ (rest : List Target), (x :: rest).getLast? = some (rest.getLastD x) := by
  intro rest
  induction rest generalizing x with
  | nil => rfl
  | cons y rest ih => rw [List.getLastD_cons]; exact ih y

theorem cycle_walk_not_none (g : List (Target × List Target)) (x : Target) :
    ∀ (zs2 : List Target) (z : Target) (ys : List Target) (fuel : Nat),
      zs2.length + 2 ≤ fuel →
      List.Chain' (edgeR g) (z :: zs2) →
      (ys ++ z :: zs2).head? = some x →
      (∀ w, (ys ++ z :: zs2).getLast? = some w → edgeR g w x) →
      walkCycle g fuel ys z ≠ none := by
  intro zs2
  induction zs2 with
  | nil =>
    intro z ys fuel hfuel hch hhead hclose hw
    cases fuel with
    | zero => omega
    | succ fuel =>
      obtain ⟨hz, hall⟩ := walkCycle_none_step hw
      have hcl : edgeR g z x := hclose z (List.getLast?_concat ys)
      have hx := hall x hcl
      cases fuel with
      | zero => omega
      | succ fuel =>
        have hxm : x ∈ ys ++ [z] := by
          rcases ys with _ | ⟨y, ys2⟩
          · simp only [List.nil_append, List.head?_cons, Option.some.injEq] at hhead
            subst hhead
            simp
          · simp only [List.cons_append, List.head?_cons, Option.some.injEq] at hhead
            subst hhead
            simp
        rw [walkCycle_succ, if_pos hxm] at hx
        exact absurd hx (by simp)
  | cons z2 zs3 ih =>
    intro z ys fuel hfuel hch hhead hclose hw
    cases fuel with
    | zero => omega
    | succ fuel =>
      obtain ⟨hz, hall⟩ := walkCycle_none_step hw
      have hedge : edgeR g z z2 := (List.chain'_cons.mp hch).1
      have hw2 := hall z2 hedge
      refine ih z2 (ys ++ [z]) fuel
        (by simp only [List.length_cons] at hfuel; omega) ?_ ?_ ?_ hw2
      · exact (List.chain'_cons.mp hch).2
      · rw [List.append_assoc, List.singleton_append]
        exact hhead
      · intro w hwlast
        apply hclose
        rw [← hwlast, List.append_assoc, List.singleton_append]

end Dataform

namespace Dataform

theorem mem_keys_of_depsOf {g : List (Target × List Target)} {n d : Target}
    (h : d ∈ depsOf g n) : n ∈ g.map Prod.fst := by
  rw [depsOf] at h
  cases hf : g.find? (fun e => e.1 = n) with
  | none => simp [hf] at h
  | some e =>
    have he : e.1 = n := by simpa using List.find?_some hf
    have hm := List.mem_of_find?_eq_some hf
    exact he ▸ List.mem_map_of_mem _ hm

theorem cycle_nodes_have_deps {g : List (Target × List Target)} {x : Target} :
    ∀ (l : List Target), List.Chain' (edgeR g) l →
      (∀ w, l.getLast? = some w → edgeR g w x) →
      ∀ n ∈ l, ∃ d, edgeR g n d := by
  intro l
  induction l with
  | nil => intro _ _ n hn; simp at hn
  | cons a l2 ih =>
    intro hch hcl n hn
    cases l2 with
    | nil =>
      rcases List.mem_cons.mp hn with rfl | hn2
      · exact ⟨x, hcl n rfl⟩
      · simp at hn2
    | cons b l3 =>
      rcases List.mem_cons.mp hn with rfl | hn2
      · exact ⟨b, (List.chain'_cons.mp hch).1⟩
      · exact ih (List.chain'_cons.mp hch).2
          (fun w hw => hcl w (by rw [← hw]; rfl)) n hn2

theorem firstSome_ne_none {α β : Type} {f : α → Option β} {a : α} :
    ∀ (l : List α), a ∈ l → f a ≠ none → firstSome f l ≠ none := by
  intro l
  induction l with
  | nil => intro h; simp at h
  | cons b l ih =>
    intro hmem hfa
    rw [firstSome]
    cases hfb : f b with
    | some v => simp
    | none =>
      rcases List.mem_cons.mp hmem with rfl | h2
      · exact absurd hfb hfa
      · exact ih h2 hfa

theorem detectCircularDeps_complete (g : List (Target × List Target))
    (x : Target) (rest : List Target)
    (hnd : (x :: rest).Nodup)
    (hchain : List.Chain' (edgeR g) (x :: rest))
    (hclose : edgeR g (rest.getLastD x) x) :
    detectCircularDeps g ≠ none := by
  have hclose2 : ∀ w, (x :: rest).getLast? = some w → edgeR g w x := by
    intro w hw
    rw [getLast?_cons_eq_getLastD] at hw
    simp only [Option.some.injEq] at hw
    exact hw ▸ hclose
  have hsub : (x :: rest) ⊆ g.map Prod.fst := by
    intro n hn
    obtain ⟨d, hd⟩ := cycle_nodes_have_deps (x :: rest) hchain hclose2 n hn
    exact mem_keys_of_depsOf hd
  have hlen : (x :: rest).length ≤ g.length := by
    have h1 := (hnd.subperm hsub).length_le
    simpa using h1
  have hwalk : walkCycle g (g.length + 1) [] x ≠ none := by
    apply cycle_walk_not_none g x rest x []
    · simp only [List.length_cons] at hlen
      omega
    · exact hchain
    · rfl
    · intro w hw
      exact hclose2 w hw
  rw [detectCircularDeps]
  exact firstSome_ne_none _ (hsub (by simp)) hwalk

end Dataform

namespace Dataform

/-- C7: for every dependency cycle (a duplicate-free chain of edges
looping back to its first target), cycle detection reports an error: the
detector returns a chain, any returned chain is a full loop — a
duplicate-free cycle of n targets followed by a repetition of the first
(n+1 entries in all, every consecutive pair an edge, the closing pair
included, so never a truncated chain) — and the graph is still
returned. -/
theorem circular_dependency_chain_reported (g : List (Target × List Target))
    (x : Target) (rest : List Target) (actions : List ActionInfo)
    (hnd : (x :: rest).Nodup)
    (hchain : List.Chain' (edgeR g) (x :: rest))
    (hclose : edgeR g (rest.getLastD x) x) :
    (∃ c, detectCircularDeps g = some c)
    ∧ (∀ c, detectCircularDeps g = some c → IsReportedCycle g c)
    ∧ (validateGraph actions g).actions = actions := by
  refine ⟨?_, ?_, rfl⟩
  · cases hd : detectCircularDeps g with
    | none => exact absurd hd (detectCircularDeps_complete g x rest hnd hchain hclose)
    | some c => exact ⟨c, rfl⟩
  · intro c hc
    exact detectCircularDeps_sound g c hc

/-- Witness for C7: the test "fails when circular dependencies" — the
two-action cycle `a → b → a` is detected and reported as the single
three-entry chain `[a, b, a]`, a cycle of length 2 reported with 3
targets ending back at the start. -/
theorem circular_dependency_chain_reported_witness :
    (∃ c, detectCircularDeps
      [(⟨"defaultProject", "defaultDataset", "a"⟩, [⟨"defaultProject", "defaultDataset", "b"⟩]),
       (⟨"defaultProject", "defaultDataset", "b"⟩, [⟨"defaultProject", "defaultDataset", "a"⟩])]
      = some c)
    ∧ detectCircularDeps
      [(⟨"defaultProject", "defaultDataset", "a"⟩, [⟨"defaultProject", "defaultDataset", "b"⟩]),
       (⟨"defaultProject", "defaultDataset", "b"⟩, [⟨"defaultProject", "defaultDataset", "a"⟩])]
      = some [⟨"defaultProject", "defaultDataset", "a"⟩,
              ⟨"defaultProject", "defaultDataset", "b"⟩,
              ⟨"defaultProject", "defaultDataset", "a"⟩]
    ∧ IsReportedCycle
      [(⟨"defaultProject", "defaultDataset", "a"⟩, [⟨"defaultProject", "defaultDataset", "b"⟩]),
       (⟨"defaultProject", "defaultDataset", "b"⟩, [⟨"defaultProject", "defaultDataset", "a"⟩])]
      [⟨"defaultProject", "defaultDataset", "a"⟩,
       ⟨"defaultProject", "defaultDataset", "b"⟩,
       ⟨"defaultProject", "defaultDataset", "a"⟩] := by
  have h := circular_dependency_chain_reported
    [(⟨"defaultProject", "defaultDataset", "a"⟩, [⟨"defaultProject", "defaultDataset", "b"⟩]),
     (⟨"defaultProject", "defaultDataset", "b"⟩, [⟨"defaultProject", "defaultDataset", "a"⟩])]
    ⟨"defaultProject", "defaultDataset", "a"⟩
    [⟨"defaultProject", "defaultDataset", "b"⟩] []
    (by decide)
    (List.chain'_cons.mpr ⟨by decide, List.chain'_singleton _⟩)
    (by decide)
  refine ⟨h.1, by decide, h.2.1 _ (by decide)⟩

end Dataform
